import Mathlib

/-!
Verification development for the benchq repository.

The Python sources are shallowly embedded:
pure functions become Lean functions, numpy boolean vectors become
`List Bool`, numpy float arrays become functions into `ℚ`
(the arrays in the repository hold exact small values, so `ℚ` models
the float arithmetic used on them faithfully), Python ints become `ℤ`
or `ℕ`, and code that can raise becomes `Except String` or `Option`.
Calls into third-party scientific libraries (openfermion, stim, the
Julia graph simulator) are abstracted as oracle parameters, since the
repository only orchestrates them.
-/

namespace Benchq

/-! ## Embedding of the tableau-comparison utilities of
`tests/benchq/compilation/test_graph_sim_mini.py` -/

/-- Embedding of `_bool_dot(x, y)`:
`array_and = np.logical_and(x, y); ans = array_and[0];
 for i in array_and[1:]: ans = np.logical_xor(ans, i); return ans`.
Indexing `array_and[0]` raises `IndexError` on an empty array, which is
modelled by returning `none`. -/
def _bool_dot (x y : List Bool) : Option Bool :=
  match List.zipWith and x y with
  | [] => none
  | a :: rest => some (rest.foldl xor a)

/-- Embedding of `commutes(stab_1, stab_2)`:
`n_qubits = len(stab_1) // 2;
 comm1 = _bool_dot(stab_1[:n_qubits], stab_2[n_qubits:]);
 comm2 = _bool_dot(stab_1[n_qubits:], stab_2[:n_qubits]);
 return not (comm1 ^ comm2)`.
A raised `IndexError` from `_bool_dot` propagates, modelled as `none`. -/
def commutes (stab_1 stab_2 : List Bool) : Option Bool :=
  let n_qubits := stab_1.length / 2
  match _bool_dot (stab_1.take n_qubits) (stab_2.drop n_qubits),
        _bool_dot (stab_1.drop n_qubits) (stab_2.take n_qubits) with
  | some comm1, some comm2 => some (!(xor comm1 comm2))
  | _, _ => none

/-- The mod-2 inner product of two boolean vectors: the parity
(iterated XOR, starting from `false`) of the elementwise conjunctions. -/
def mod2InnerProduct (x y : List Bool) : Bool :=
  (List.zipWith and x y).foldl xor false

theorem foldl_xor_from (l : List Bool) (a : Bool) :
    l.foldl xor a = xor a (l.foldl xor false) := by
  induction l generalizing a with
  | nil => simp
  | cons b t ih =>
    simp only [List.foldl_cons]
    rw [ih (xor a b), ih (xor false b)]
    cases a <;> cases b <;> simp [Bool.xor_assoc]

theorem zipWith_and_comm (x y : List Bool) :
    List.zipWith and x y = List.zipWith and y x :=
  List.zipWith_comm_of_comm and Bool.and_comm x y

theorem _bool_dot_comm (x y : List Bool) : _bool_dot x y = _bool_dot y x := by
  unfold _bool_dot
  rw [zipWith_and_comm]

/-- C9: for boolean vectors of equal length at least 1, `_bool_dot` returns the
mod-2 inner product (the parity of the elementwise conjunctions); on an empty
vector the reduction has no first element to start from and raises
(modelled as `none`). -/
theorem _bool_dot_is_mod2_inner_product (x y : List Bool)
    (hlen : x.length = y.length) :
    (1 ≤ x.length → _bool_dot x y = some (mod2InnerProduct x y)) ∧
    (x = [] → _bool_dot x y = none) := by
  constructor
  · intro hx
    unfold _bool_dot mod2InnerProduct
    cases hz : List.zipWith and x y with
    | nil =>
      exfalso
      rcases List.zipWith_eq_nil_iff.mp hz with h | h
      · rw [h] at hx; exact absurd hx (by simp)
      · rw [h] at hlen; simp at hlen; rw [hlen] at hx; exact absurd hx (by simp)
    | cons a rest =>
      simp [List.foldl_cons]
  · intro hx
    subst hx
    rfl

/-- Witness for `_bool_dot_is_mod2_inner_product` at a concrete input. -/
theorem _bool_dot_is_mod2_inner_product_witness :
    _bool_dot [true, false, true] [true, true, false] = some true := by
  have h := (_bool_dot_is_mod2_inner_product [true, false, true]
    [true, true, false] (by decide)).1 (by decide)
  rw [h]
  decide

/-- Embedding of `check_tableau_entries_commute(tableau_1, tableau_2)`:
`n_qubits = len(tableau_1) // 2;
 for i in range(n_qubits): for j in range(i, n_qubits):
   if not commutes(tableau_1[i], tableau_2[j]): return False;
 return True`.
Note the source computes `n_qubits` as the number of ROWS of `tableau_1`
divided by 2. The visited `(i, j)` pairs are enumerated in loop order;
an exception from `commutes` propagates (`none`). Row indexing is total
in the embedding (`getD`), which is faithful for the in-range indices the
loops produce on tableaus with at least `n_qubits` rows. -/
def checkCommutePairs (t1 t2 : List (List Bool)) :
    List (ℕ × ℕ) → Option Bool
  | [] => some true
  | (i, j) :: rest =>
    match commutes (t1.getD i []) (t2.getD j []) with
    | none => none
    | some false => some false
    | some true => checkCommutePairs t1 t2 rest

def check_tableau_entries_commute (t1 t2 : List (List Bool)) : Option Bool :=
  let n_qubits := t1.length / 2
  checkCommutePairs t1 t2
    ((List.range n_qubits).flatMap fun i =>
      ((List.range n_qubits).drop i).map fun j => (i, j))

/-- Cross-multiplied row elimination step: replace row `s` by
`(head of p) * s - (head of s) * p`, a nonzero rational multiple of the usual
Gaussian step when the pivot head is nonzero, so it preserves rank. -/
def rowElim (p s : List ℤ) : List ℤ :=
  List.zipWith (fun b a => p.headD 0 * b - s.headD 0 * a) s p

/-- Pick the first row whose leading entry is nonzero, returning it together
with the remaining rows (in order). -/
def pickPivot : List (List ℤ) → Option (List ℤ × List (List ℤ))
  | [] => none
  | r :: rest =>
    if r.headD 0 ≠ 0 then some (r, rest)
    else match pickPivot rest with
      | none => none
      | some (p, others) => some (p, r :: others)

/-- Rank of an integer matrix by fraction-free Gaussian elimination, with fuel
bounding the number of columns processed. Models `np.linalg.matrix_rank` on
the boolean tableaus the tests build: numpy casts them to floats and computes
the rank of the resulting 0/1 matrix, which coincides with the rank over `ℚ`
computed here. -/
def rankFuel : ℕ → List (List ℤ) → ℕ
  | 0, _ => 0
  | fuel + 1, rows =>
    match pickPivot rows with
    | none => rankFuel fuel (rows.map List.tail)
    | some (p, others) =>
      1 + rankFuel fuel (others.map fun s => (rowElim p s).tail)

def matrix_rank (rows : List (List ℤ)) : ℕ :=
  rankFuel (rows.headD []).length rows

/-- The shape of a (rectangular) 2-D numpy array: rows and columns. -/
def npShape (t : List (List Bool)) : ℕ × ℕ :=
  (t.length, (t.headD []).length)

def boolToInt (b : Bool) : ℤ := if b then 1 else 0

def toIntMatrix (t : List (List Bool)) : List (List ℤ) :=
  t.map fun r => r.map boolToInt

/-- Embedding of
`assert_tableaus_correspond_to_the_same_stabilizer_state(tableau_1, tableau_2)`.
The source executes, in order:
`assert tableau_1.shape == tableau_2.shape`;
`n_qubits = len(tableau_2)`;
`assert check_tableau_entries_commute` — this asserts the FUNCTION OBJECT
itself (the call parentheses are missing), and a Python function object is
always truthy, so this line can never fail and the commutation check is
never executed;
`assert np.linalg.matrix_rank(tableau_1) == n_qubits`;
`assert np.linalg.matrix_rank(tableau_2) == n_qubits`.
A failed assert is modelled as `Except.error`. -/
def assert_tableaus_correspond_to_the_same_stabilizer_state
    (tableau_1 tableau_2 : List (List Bool)) : Except String Unit :=
  if npShape tableau_1 ≠ npShape tableau_2 then
    Except.error "tableau_1.shape == tableau_2.shape"
  else
    let n_qubits := tableau_2.length
    if matrix_rank (toIntMatrix tableau_1) ≠ n_qubits then
      Except.error "np.linalg.matrix_rank(tableau_1) == n_qubits"
    else if matrix_rank (toIntMatrix tableau_2) ≠ n_qubits then
      Except.error "np.linalg.matrix_rank(tableau_2) == n_qubits"
    else Except.ok ()

/-- C3 counterexample: tableau_1 with stabilizer rows X⊗I and I⊗X, tableau_2
with rows Z⊗I and I⊗Z. Shapes agree and both matrices have full rank 2, yet
row 0 of tableau_1 anticommutes with row 0 of tableau_2 (and
`check_tableau_entries_commute` returns `False` on this pair). The claim says
the function must raise; the code's `assert check_tableau_entries_commute`
tests only the truthiness of the function object, so the assertion function
succeeds. -/
theorem assert_tableaus_misses_anticommuting_rows :
    assert_tableaus_correspond_to_the_same_stabilizer_state
      [[true, false, false, false], [false, true, false, false]]
      [[false, false, true, false], [false, false, false, true]]
      = Except.ok () ∧
    check_tableau_entries_commute
      [[true, false, false, false], [false, true, false, false]]
      [[false, false, true, false], [false, false, false, true]]
      = some false ∧
    commutes [true, false, false, false] [false, false, true, false]
      = some false := by
  exact ⟨rfl, by decide, by decide⟩

/-- C10: for symplectic Pauli vectors of the same even length, the
commutation test is symmetric. -/
theorem commutes_symm (s1 s2 : List Bool) (hlen : s1.length = s2.length)
    (_heven : Even s1.length) : commutes s1 s2 = commutes s2 s1 := by
  unfold commutes
  dsimp only
  have hn : s2.length / 2 = s1.length / 2 := by rw [hlen]
  rw [hn]
  rw [_bool_dot_comm (s2.take (s1.length / 2)) (s1.drop (s1.length / 2)),
      _bool_dot_comm (s2.drop (s1.length / 2)) (s1.take (s1.length / 2))]
  cases hA : _bool_dot (s1.take (s1.length / 2)) (s2.drop (s1.length / 2)) <;>
    cases hB : _bool_dot (s1.drop (s1.length / 2)) (s2.take (s1.length / 2)) <;>
      simp [hA, hB, Bool.xor_comm]

/-- Witness for `commutes_symm` at a concrete input. -/
theorem commutes_symm_witness :
    commutes [true, false] [false, true] = commutes [false, true] [true, false] :=
  commutes_symm [true, false] [false, true] (by decide) (by decide)

/-! ## Embedding of orquestra circuits and the ICM conversion of
`tests/benchq/compilation/test_graph_sim_mini.py` -/

/-- An orquestra gate: its name together with its (rotation) parameters,
carried opaquely. -/
structure Gate where
  name : String
  params : List ℚ
deriving DecidableEq

/-- An orquestra gate operation: a gate applied to a list of qubit indices.
Python integers are modelled by `ℤ`. -/
structure Operation where
  gate : Gate
  qubit_indices : List ℤ
deriving DecidableEq

/-- A circuit is its list of operations; orquestra's `Circuit.n_qubits` is one
past the highest qubit index appearing in the operations (0 when none). -/
def n_qubits (ops : List Operation) : ℤ :=
  ops.foldl (fun a op => op.qubit_indices.foldl (fun b q => max b (q + 1)) a) 0

def default_gates_to_decompose : List String := ["T", "T_Dagger", "RZ"]

/-- The per-qubit loop of the `gates_to_decompose` branch of `get_icm`:
`for original_qubit, compiled_qubit in zip(op.qubit_indices, compiled_qubits):
   icm_circuit_n_qubits += 1;
   compiled_qubit_index[original_qubit] = icm_circuit_n_qubits;
   icm_circuit += [CNOT(compiled_qubit, icm_circuit_n_qubits)]`.
The `compiled_qubit` values were read from the mapping once, before the loop.
Returns the emitted gates, the updated mapping and the updated counter. -/
def icmDecomposeLoop : List (ℤ × ℤ) → (ℤ → ℤ) → ℤ →
    List Operation × (ℤ → ℤ) × ℤ
  | [], m, cnt => ([], m, cnt)
  | (original_qubit, compiled_qubit) :: rest, m, cnt =>
    let cnt' := cnt + 1
    let r := icmDecomposeLoop rest (Function.update m original_qubit cnt') cnt'
    (⟨⟨"CNOT", []⟩, [compiled_qubit, cnt']⟩ :: r.1, r.2.1, r.2.2)

/-- The per-qubit loop of the `RESET` branch of `get_icm`: a fresh ancilla per
qubit, with no gate emitted. -/
def icmResetLoop : List ℤ → (ℤ → ℤ) → ℤ → (ℤ → ℤ) × ℤ
  | [], m, cnt => (m, cnt)
  | q :: rest, m, cnt =>
    icmResetLoop rest (Function.update m q (cnt + 1)) (cnt + 1)

/-- The main loop of `get_icm` over `circuit.operations`, threading the qubit
mapping `compiled_qubit_index` and the ancilla counter `icm_circuit_n_qubits`. -/
def get_icm_aux (gates_to_decompose : List String) :
    List Operation → (ℤ → ℤ) → ℤ → List Operation
  | [], _, _ => []
  | op :: ops, m, cnt =>
    let compiled_qubits := op.qubit_indices.map m
    if op.gate.name ∈ gates_to_decompose then
      let r := icmDecomposeLoop (op.qubit_indices.zip compiled_qubits) m cnt
      r.1 ++ get_icm_aux gates_to_decompose ops r.2.1 r.2.2
    else if op.gate.name = "RESET" then
      let r := icmResetLoop op.qubit_indices m cnt
      get_icm_aux gates_to_decompose ops r.1 r.2
    else
      ⟨op.gate, op.qubit_indices.map m⟩ :: get_icm_aux gates_to_decompose ops m cnt

/-- Embedding of `get_icm(circuit, gates_to_decompose=["T", "T_Dagger", "RZ"])`.
In the source, `compiled_qubit_index` starts as `{i: i for i in range(n_qubits)}`
and is read with `.get(qubit, qubit)`: every index is either in the dict (mapped
to itself) or defaults to itself, so the initial mapping is the identity
function, and the direct `compiled_qubit_index[i]` lookups of the final branch
agree with it for the in-range indices circuits contain. The ancilla counter
starts at `circuit.n_qubits - 1`. -/
def get_icm (circuit : List Operation)
    (gates_to_decompose : List String := default_gates_to_decompose) :
    List Operation :=
  get_icm_aux gates_to_decompose circuit id (n_qubits circuit - 1)

/-- The decomposition branch as the claim words it: for each qubit the
operation acts on, allocate one fresh ancilla (one past the highest index used
so far) and emit one CNOT from that qubit's CURRENT compiled index to the new
ancilla, remapping the qubit to the ancilla from then on. -/
def icmDecomposeLoopClaim : List ℤ → (ℤ → ℤ) → ℤ →
    List Operation × (ℤ → ℤ) × ℤ
  | [], m, hi => ([], m, hi)
  | q :: rest, m, hi =>
    let fresh := hi + 1
    let r := icmDecomposeLoopClaim rest (Function.update m q fresh) fresh
    (⟨⟨"CNOT", []⟩, [m q, fresh]⟩ :: r.1, r.2.1, r.2.2)

/-- `get_icm` as described by the claim, built on `icmDecomposeLoopClaim`. -/
def get_icm_claim_aux (gates_to_decompose : List String) :
    List Operation → (ℤ → ℤ) → ℤ → List Operation
  | [], _, _ => []
  | op :: ops, m, hi =>
    if op.gate.name ∈ gates_to_decompose then
      let r := icmDecomposeLoopClaim op.qubit_indices m hi
      r.1 ++ get_icm_claim_aux gates_to_decompose ops r.2.1 r.2.2
    else if op.gate.name = "RESET" then
      let r := icmResetLoop op.qubit_indices m hi
      get_icm_claim_aux gates_to_decompose ops r.1 r.2
    else
      ⟨op.gate, op.qubit_indices.map m⟩ :: get_icm_claim_aux gates_to_decompose ops m hi

def get_icm_claim (circuit : List Operation)
    (gates_to_decompose : List String := default_gates_to_decompose) :
    List Operation :=
  get_icm_claim_aux gates_to_decompose circuit id (n_qubits circuit - 1)

theorem icmDecomposeLoop_eq_claim (m₀ : ℤ → ℤ) :
    ∀ (qs : List ℤ), qs.Nodup → ∀ (m : ℤ → ℤ) (cnt : ℤ),
    (∀ q ∈ qs, m q = m₀ q) →
    icmDecomposeLoop (qs.zip (qs.map m₀)) m cnt =
      icmDecomposeLoopClaim qs m cnt := by
  intro qs
  induction qs with
  | nil => intro _ m cnt _; rfl
  | cons q rest ih =>
    intro hnd m cnt hm
    simp only [List.map_cons, List.zip_cons_cons, icmDecomposeLoop,
      icmDecomposeLoopClaim]
    have hq : m q = m₀ q := hm q (List.mem_cons_self q rest)
    have hrest : ∀ q' ∈ rest, Function.update m q (cnt + 1) q' = m₀ q' := by
      intro q' hq'
      have hne : q' ≠ q := by
        intro hcontra
        subst hcontra
        exact (List.nodup_cons.mp hnd).1 hq'
      rw [Function.update_noteq hne]
      exact hm q' (List.mem_cons_of_mem q hq')
    have hz : List.zipWith Prod.mk rest (List.map m₀ rest) =
        rest.zip (List.map m₀ rest) := rfl
    rw [hz, ih (List.nodup_cons.mp hnd).2 (Function.update m q (cnt + 1))
      (cnt + 1) hrest, hq]

/-- C4 auxiliary: with every operation acting on pairwise distinct qubits, the
source loop and the claim's description agree step by step. -/
theorem get_icm_aux_eq_claim (gates_to_decompose : List String) :
    ∀ (ops : List Operation), (∀ op ∈ ops, op.qubit_indices.Nodup) →
    ∀ m cnt, get_icm_aux gates_to_decompose ops m cnt =
      get_icm_claim_aux gates_to_decompose ops m cnt := by
  intro ops
  induction ops with
  | nil => intro _ m cnt; rfl
  | cons op ops ih =>
    intro hnd m cnt
    have hop : op.qubit_indices.Nodup := hnd op (List.mem_cons_self op ops)
    have hops : ∀ o ∈ ops, o.qubit_indices.Nodup :=
      fun o ho => hnd o (List.mem_cons_of_mem op ho)
    simp only [get_icm_aux, get_icm_claim_aux]
    by_cases h1 : op.gate.name ∈ gates_to_decompose
    · simp only [if_pos h1]
      rw [icmDecomposeLoop_eq_claim m op.qubit_indices hop m cnt
        (fun _ _ => rfl)]
      rw [ih hops]
    · by_cases h2 : op.gate.name = "RESET"
      · simp only [if_neg h1, if_pos h2]
        rw [ih hops]
      · simp only [if_neg h1, if_neg h2]
        rw [ih hops]

/-- C4: `get_icm` behaves exactly as the claim describes it — gates in
`gates_to_decompose` are replaced, per acted-on qubit, by one CNOT from the
qubit's current compiled index to a freshly allocated ancilla (one past the
highest index used so far) to which the qubit is remapped; RESET only remaps
to fresh ancillas; every other operation is emitted with its indices replaced
by their current compiled indices — for circuits whose operations act on
pairwise distinct qubits. -/
theorem get_icm_matches_claim (circuit : List Operation)
    (gates_to_decompose : List String)
    (hnd : ∀ op ∈ circuit, op.qubit_indices.Nodup) :
    get_icm circuit gates_to_decompose = get_icm_claim circuit gates_to_decompose :=
  get_icm_aux_eq_claim gates_to_decompose circuit hnd id (n_qubits circuit - 1)

/-- Witness for `get_icm_matches_claim` on a concrete circuit containing a
decomposed T gate, a RESET, and ordinary gates. -/
theorem get_icm_matches_claim_witness :
    get_icm
      [⟨⟨"H", []⟩, [0]⟩, ⟨⟨"T", []⟩, [0]⟩, ⟨⟨"RESET", []⟩, [1]⟩,
       ⟨⟨"CNOT", []⟩, [0, 1]⟩]
      default_gates_to_decompose =
    get_icm_claim
      [⟨⟨"H", []⟩, [0]⟩, ⟨⟨"T", []⟩, [0]⟩, ⟨⟨"RESET", []⟩, [1]⟩,
       ⟨⟨"CNOT", []⟩, [0, 1]⟩]
      default_gates_to_decompose :=
  get_icm_matches_claim _ _ (by decide)

/-- C8 auxiliary: when no operation triggers the decomposition or RESET
branches, the loop leaves the identity mapping untouched and re-emits every
operation unchanged. -/
theorem get_icm_aux_id (gates_to_decompose : List String) :
    ∀ (ops : List Operation),
    (∀ op ∈ ops, op.gate.name ∉ gates_to_decompose ∧ op.gate.name ≠ "RESET") →
    ∀ cnt, get_icm_aux gates_to_decompose ops id cnt = ops := by
  intro ops
  induction ops with
  | nil => intro _ cnt; rfl
  | cons op ops ih =>
    intro h cnt
    have hop := h op (List.mem_cons_self op ops)
    have hops : ∀ o ∈ ops,
        o.gate.name ∉ gates_to_decompose ∧ o.gate.name ≠ "RESET" :=
      fun o ho => h o (List.mem_cons_of_mem op ho)
    simp only [get_icm_aux, if_neg hop.1, if_neg hop.2]
    rw [ih hops cnt, List.map_id]

/-- C8: on a circuit containing no T, T_Dagger, RZ or RESET operation,
`get_icm` with the default `gates_to_decompose` is the identity: same
operations, in the same order, on the same qubit indices. -/
theorem get_icm_identity_without_decomposed_gates (circuit : List Operation)
    (h : ∀ op ∈ circuit,
      op.gate.name ∉ default_gates_to_decompose ∧ op.gate.name ≠ "RESET") :
    get_icm circuit = circuit :=
  get_icm_aux_id default_gates_to_decompose circuit h (n_qubits circuit - 1)

/-- Witness for `get_icm_identity_without_decomposed_gates` on a concrete
Clifford circuit. -/
theorem get_icm_identity_witness :
    get_icm [⟨⟨"H", []⟩, [0]⟩, ⟨⟨"S", []⟩, [0]⟩, ⟨⟨"CNOT", []⟩, [0, 1]⟩] =
      [⟨⟨"H", []⟩, [0]⟩, ⟨⟨"S", []⟩, [0]⟩, ⟨⟨"CNOT", []⟩, [0, 1]⟩] :=
  get_icm_identity_without_decomposed_gates _ (by decide)

/-! ## Embedding of `get_target_tableau` -/

/-- The gate names `get_target_tableau` accepts (including the skipped `I`). -/
def supported_gate_names : List String :=
  ["I", "X", "Y", "Z", "CNOT", "S_Dagger", "S", "SX", "SX_Dagger", "H", "CZ"]

/-- The `if`/`elif` dispatch of `get_target_tableau`, mapping a gate name to
the stim `TableauSimulator` method it invokes; `none` for names that reach the
final `else: raise ValueError(...)` (the skipped `I` is handled before this
chain). -/
def stim_gate_for (name : String) : Option String :=
  if name = "X" then some "x"
  else if name = "Y" then some "y"
  else if name = "Z" then some "z"
  else if name = "CNOT" then some "cx"
  else if name = "S_Dagger" then some "s_dag"
  else if name = "S" then some "s"
  else if name = "SX" then some "sqrt_x"
  else if name = "SX_Dagger" then some "sqrt_x_dag"
  else if name = "H" then some "h"
  else if name = "CZ" then some "cz"
  else none

/-- Embedding of the loop of `get_target_tableau(circuit)`: the stim simulator
state is modelled by the ordered trace of method calls applied to it. `I`
operations are skipped; an unsupported gate name raises
`ValueError(f"Gate \x7bop.gate.name\x7d not supported.")`, aborting the loop. -/
def get_target_tableau_aux :
    List Operation → List (String × List ℤ) → Except String (List (String × List ℤ))
  | [], acc => Except.ok acc
  | op :: ops, acc =>
    if op.gate.name = "I" then get_target_tableau_aux ops acc
    else
      match stim_gate_for op.gate.name with
      | some g => get_target_tableau_aux ops (acc ++ [(g, op.qubit_indices)])
      | none => Except.error ("Gate " ++ op.gate.name ++ " not supported.")

def get_target_tableau (circuit : List Operation) :
    Except String (List (String × List ℤ)) :=
  get_target_tableau_aux circuit []

theorem stim_gate_for_none_iff (name : String) :
    stim_gate_for name = none ↔
      name = "I" ∨ name ∉ supported_gate_names := by
  unfold stim_gate_for
  split_ifs with h1 h2 h3 h4 h5 h6 h7 h8 h9 h10 <;>
    simp_all [supported_gate_names]
  exact em (name = "I")

theorem get_target_tableau_aux_spec :
    ∀ (ops : List Operation) (acc : List (String × List ℤ)),
    ((∃ e, get_target_tableau_aux ops acc = Except.error e) ↔
      ∃ op ∈ ops, op.gate.name ∉ supported_gate_names) ∧
    (∀ tr, get_target_tableau_aux ops acc = Except.ok tr →
      tr = acc ++ (ops.filter fun op => op.gate.name ≠ "I").map
        fun op => ((stim_gate_for op.gate.name).getD "", op.qubit_indices)) := by
  intro ops
  induction ops with
  | nil =>
    intro acc
    constructor
    · simp [get_target_tableau_aux]
    · intro tr htr
      simp only [get_target_tableau_aux] at htr
      injection htr with h
      simp [h]
  | cons op ops ih =>
    intro acc
    by_cases hI : op.gate.name = "I"
    · have hsup : op.gate.name ∈ supported_gate_names := by
        rw [hI]; simp [supported_gate_names]
      constructor
      · rw [show get_target_tableau_aux (op :: ops) acc =
            get_target_tableau_aux ops acc by
          simp [get_target_tableau_aux, hI]]
        rw [(ih acc).1]
        constructor
        · rintro ⟨o, ho, hno⟩
          exact ⟨o, List.mem_cons_of_mem op ho, hno⟩
        · rintro ⟨o, ho, hno⟩
          rcases List.mem_cons.mp ho with rfl | ho'
          · exact absurd hsup hno
          · exact ⟨o, ho', hno⟩
      · intro tr htr
        rw [show get_target_tableau_aux (op :: ops) acc =
            get_target_tableau_aux ops acc by
          simp [get_target_tableau_aux, hI]] at htr
        rw [(ih acc).2 tr htr]
        simp [List.filter_cons, hI]
    · cases hg : stim_gate_for op.gate.name with
      | some g =>
        have hsup : op.gate.name ∈ supported_gate_names := by
          by_contra hns
          rw [(stim_gate_for_none_iff op.gate.name).mpr (Or.inr hns)] at hg
          exact Option.noConfusion hg
        have hstep : get_target_tableau_aux (op :: ops) acc =
            get_target_tableau_aux ops (acc ++ [(g, op.qubit_indices)]) := by
          simp [get_target_tableau_aux, hI, hg]
        constructor
        · rw [hstep, (ih (acc ++ [(g, op.qubit_indices)])).1]
          constructor
          · rintro ⟨o, ho, hno⟩
            exact ⟨o, List.mem_cons_of_mem op ho, hno⟩
          · rintro ⟨o, ho, hno⟩
            rcases List.mem_cons.mp ho with rfl | ho'
            · exact absurd hsup hno
            · exact ⟨o, ho', hno⟩
        · intro tr htr
          rw [hstep] at htr
          rw [(ih (acc ++ [(g, op.qubit_indices)])).2 tr htr]
          simp [List.filter_cons, hI, hg]
      | none =>
        have hns : op.gate.name ∉ supported_gate_names := by
          rcases (stim_gate_for_none_iff op.gate.name).mp hg with h | h
          · exact absurd h hI
          · exact h
        have hstep : get_target_tableau_aux (op :: ops) acc =
            Except.error ("Gate " ++ op.gate.name ++ " not supported.") := by
          simp [get_target_tableau_aux, hI, hg]
        constructor
        · rw [hstep]
          constructor
          · intro _
            exact ⟨op, List.mem_cons_self op ops, hns⟩
          · intro _
            exact ⟨_, rfl⟩
        · intro tr htr
          rw [hstep] at htr
          exact Except.noConfusion htr

/-- C7: `get_target_tableau` skips `I` operations, applies the corresponding
stim simulator operation (in circuit order) for every gate named X, Y, Z,
CNOT, S_Dagger, S, SX, SX_Dagger, H or CZ, and raises a ValueError exactly
when the circuit contains an operation with any other gate name — it never
silently drops a gate. -/
theorem get_target_tableau_dispatch (circuit : List Operation) :
    ((∃ e, get_target_tableau circuit = Except.error e) ↔
      ∃ op ∈ circuit, op.gate.name ∉ supported_gate_names) ∧
    (∀ tr, get_target_tableau circuit = Except.ok tr →
      tr = (circuit.filter fun op => op.gate.name ≠ "I").map
        fun op => ((stim_gate_for op.gate.name).getD "", op.qubit_indices)) := by
  have h := get_target_tableau_aux_spec circuit []
  unfold get_target_tableau
  constructor
  · exact h.1
  · intro tr htr
    rw [h.2 tr htr]
    simp

/-- Witness for `get_target_tableau_dispatch`: a circuit with an `H`, a
skipped `I` and a `CNOT` produces exactly the `h` and `cx` stim calls. -/
theorem get_target_tableau_dispatch_witness :
    [("h", [(0 : ℤ)]), ("cx", [0, 1])] =
      (([⟨⟨"H", []⟩, [0]⟩, ⟨⟨"I", []⟩, [0]⟩,
         ⟨⟨"CNOT", []⟩, [0, 1]⟩] : List Operation).filter
          fun op => op.gate.name ≠ "I").map
        fun op => ((stim_gate_for op.gate.name).getD "", op.qubit_indices) :=
  (get_target_tableau_dispatch
    [⟨⟨"H", []⟩, [0]⟩, ⟨⟨"I", []⟩, [0]⟩, ⟨⟨"CNOT", []⟩, [0, 1]⟩]).2
    [("h", [0]), ("cx", [0, 1])] rfl

/-! ## Embedding of `src/benchq/resource_estimation/openfermion_re.py`

The two functions under verification orchestrate calls into openfermion
(`sf.factorize`, `sf.compute_cost`), `compute_lambda` and `cost_estimator`,
all defined outside this repository; those calls are abstracted as oracle
parameters. Numpy float arrays are modelled as `ℚ`-valued functions. -/

/-- A 2-D numpy array (`h1`): its leading dimension and its entries. -/
structure NPArray2 where
  shape0 : ℕ
  entry : ℕ → ℕ → ℚ

/-- A four-index electron-repulsion-integral array over `n` orbitals. -/
def Eri (n : ℕ) : Type := Fin n → Fin n → Fin n → Fin n → ℚ

/-- `np.transpose(eri, (2, 3, 0, 1))`: entry `(i, j, k, l)` of the transposed
array is entry `(k, l, i, j)` of `eri`. -/
def transpose2301 {n : ℕ} (eri : Eri n) : Eri n :=
  fun i j k l => eri k l i j

/-- numpy's default absolute tolerance `atol = 1e-8` for `np.allclose`. -/
def npAtol : ℚ := 1 / 100000000

/-- numpy's default relative tolerance `rtol = 1e-5` for `np.allclose`. -/
def npRtol : ℚ := 1 / 100000

/-- `np.allclose(a, b)` on four-index arrays:
`|a - b| <= atol + rtol * |b|` entrywise, with numpy's default tolerances. -/
def allcloseEri {n : ℕ} (a b : Eri n) : Prop :=
  ∀ i j k l, |a i j k l - b i j k l| ≤ npAtol + npRtol * |b i j k l|

instance {n : ℕ} (a b : Eri n) : Decidable (allcloseEri a b) := by
  unfold allcloseEri
  infer_instance

/-- The external scientific routines `get_single_factorized_qpe_toffoli_and_qubit_cost`
calls, abstracted: `sf.factorize` (returning `eri_rr` and `LR`, the latter of
abstract type `LRT`), `compute_lambda`, and `sf.compute_cost` (returning a
triple: step count, Toffoli count, logical-qubit count; its arguments are, in
order, the spin-orbital count, lambda, the phase-estimation error, the rank
`L`, the state-preparation bit precision `chi`, and the step count `stps`). -/
structure SFOracles (n : ℕ) (LRT : Type) where
  factorize : Eri n → ℕ → Eri n × LRT
  compute_lambda : NPArray2 → Eri n → LRT → ℚ
  compute_cost : ℕ → ℚ → ℚ → ℕ → ℚ → ℕ → ℕ × ℕ × ℕ

/-- Embedding of `get_single_factorized_qpe_toffoli_and_qubit_cost`:
`num_orb = h1.shape[0]; num_spinorb = num_orb * 2;
 eri_rr, LR = sf.factorize(eri, rank); lam = compute_lambda(h1, eri_rr, LR);
 stps1 = sf.compute_cost(num_spinorb, lam, err, L=rank, chi=chi, stps=20000)[0];
 _, toffoli, qubits = sf.compute_cost(num_spinorb, lam, err, L=rank, chi=chi,
                                      stps=stps1);
 return toffoli, qubits`. -/
def get_single_factorized_qpe_toffoli_and_qubit_cost {n : ℕ} {LRT : Type}
    (O : SFOracles n LRT) (h1 : NPArray2) (eri : Eri n) (rank : ℕ)
    (allowable_phase_estimation_error bits_precision_state_prep : ℚ) :
    ℕ × ℕ :=
  let num_orb := h1.shape0
  let num_spinorb := num_orb * 2
  let fr := O.factorize eri rank
  let lam := O.compute_lambda h1 fr.1 fr.2
  let stps1 := (O.compute_cost num_spinorb lam allowable_phase_estimation_error
    rank bits_precision_state_prep 20000).1
  let second := O.compute_cost num_spinorb lam allowable_phase_estimation_error
    rank bits_precision_state_prep stps1
  (second.2.1, second.2.2)

/-- The physical-cost modelling `get_single_factorized_qpe_resource_estimate`
performs after costing, abstracted: `cost_estimator` applied to the logical
qubit count and the Toffoli count (the surface-code parameters are fixed in
the source), followed by `_openfermion_result_to_resource_info`; `Info` is the
abstract type of the resulting resource-info record. -/
structure CostOracle (Info : Type) where
  estimate : ℕ → ℕ → Info

/-- Embedding of `get_single_factorized_qpe_resource_estimate`:
`if not np.allclose(np.transpose(eri, (2, 3, 0, 1)), eri):
   raise ValueError("ERI do not have (ij | kl) == (kl | ij) symmetry.");
 toffoli, qubits = get_single_factorized_qpe_toffoli_and_qubit_cost(...);
 best_cost, best_params = cost_estimator(qubits, toffoli, ...);
 return _openfermion_result_to_resource_info(best_cost, best_params)`.
A raised `ValueError` is `Except.error`; nothing catches it. -/
def get_single_factorized_qpe_resource_estimate {n : ℕ} {LRT Info : Type}
    (O : SFOracles n LRT) (C : CostOracle Info) (h1 : NPArray2) (eri : Eri n)
    (rank : ℕ)
    (allowable_phase_estimation_error bits_precision_state_prep : ℚ) :
    Except String Info :=
  if ¬ allcloseEri (transpose2301 eri) eri then
    Except.error "ERI do not have (ij | kl) == (kl | ij) symmetry."
  else
    let costs := get_single_factorized_qpe_toffoli_and_qubit_cost O h1 eri
      rank allowable_phase_estimation_error bits_precision_state_prep
    Except.ok (C.estimate costs.2 costs.1)

/-- C1: the resource-estimate entry point raises its symmetry ValueError
exactly when `np.transpose(eri, (2, 3, 0, 1))` is not `np.allclose` to `eri`;
the error is returned to the caller unchanged, and in that case the result
does not depend on the costing routines — no cost estimation is performed. -/
theorem resource_estimate_symmetry_error_iff {n : ℕ} {LRT LRT' Info : Type}
    (O : SFOracles n LRT) (O' : SFOracles n LRT') (C C' : CostOracle Info)
    (h1 h1' : NPArray2) (eri : Eri n) (rank rank' : ℕ) (err err' chi chi' : ℚ) :
    ((∃ e, get_single_factorized_qpe_resource_estimate O C h1 eri rank err chi
        = Except.error e) ↔ ¬ allcloseEri (transpose2301 eri) eri) ∧
    (¬ allcloseEri (transpose2301 eri) eri →
      get_single_factorized_qpe_resource_estimate O C h1 eri rank err chi
        = Except.error "ERI do not have (ij | kl) == (kl | ij) symmetry." ∧
      get_single_factorized_qpe_resource_estimate O C h1 eri rank err chi
        = get_single_factorized_qpe_resource_estimate O' C' h1' eri rank' err' chi') := by
  constructor
  · constructor
    · intro ⟨e, he⟩
      by_contra hclose
      unfold get_single_factorized_qpe_resource_estimate at he
      rw [if_neg (not_not_intro hclose)] at he
      exact Except.noConfusion he
    · intro hfar
      refine ⟨"ERI do not have (ij | kl) == (kl | ij) symmetry.", ?_⟩
      unfold get_single_factorized_qpe_resource_estimate
      rw [if_pos hfar]
  · intro hfar
    constructor
    · unfold get_single_factorized_qpe_resource_estimate
      rw [if_pos hfar]
    · unfold get_single_factorized_qpe_resource_estimate
      rw [if_pos hfar, if_pos hfar]

/-- A concrete 2-orbital ERI array violating the `(ij | kl) == (kl | ij)`
symmetry: entry `(0,0,1,1)` is 1 but entry `(1,1,0,0)` is 0. -/
def eriAsym : Eri 2 :=
  fun i j k l => if i = 0 ∧ j = 0 ∧ k = 1 ∧ l = 1 then 1 else 0

/-- Trivial oracle instantiations used by the witness. -/
def trivialSFOracles : SFOracles 2 Unit where
  factorize := fun eri _ => (eri, ())
  compute_lambda := fun _ _ _ => 0
  compute_cost := fun _ _ _ _ _ _ => (0, 0, 0)

def trivialCostOracle : CostOracle (ℕ × ℕ) where
  estimate := fun q t => (q, t)

theorem eriAsym_not_allclose : ¬ allcloseEri (transpose2301 eriAsym) eriAsym := by
  intro h
  have h0011 := h 0 0 1 1
  norm_num [transpose2301, eriAsym, npAtol, npRtol] at h0011

/-- Witness for `resource_estimate_symmetry_error_iff` at the concrete
asymmetric ERI array. -/
theorem resource_estimate_symmetry_error_iff_witness :
    get_single_factorized_qpe_resource_estimate trivialSFOracles
      trivialCostOracle ⟨2, fun _ _ => 0⟩ eriAsym 1 (1/1000) 10
      = Except.error "ERI do not have (ij | kl) == (kl | ij) symmetry." :=
  ((resource_estimate_symmetry_error_iff trivialSFOracles trivialSFOracles
    trivialCostOracle trivialCostOracle ⟨2, fun _ _ => 0⟩ ⟨2, fun _ _ => 0⟩
    eriAsym 1 1 (1/1000) (1/1000) 10 10).2 eriAsym_not_allclose).1

/-- C2: the Toffoli/qubit costing performs exactly the two-pass protocol: it
factorizes `eri` at the given rank, computes lambda from the factorization,
calls `sf.compute_cost` once with `stps=20000`, calls it a second time with
the step count returned (as first component) by the first call, and returns
the Toffoli count and the logical-qubit count of that second call, in that
order. -/
theorem toffoli_and_qubit_cost_two_pass {n : ℕ} {LRT : Type}
    (O : SFOracles n LRT) (h1 : NPArray2) (eri : Eri n) (rank : ℕ)
    (err chi : ℚ) :
    ∃ stps1,
      stps1 = (O.compute_cost (h1.shape0 * 2)
        (O.compute_lambda h1 (O.factorize eri rank).1 (O.factorize eri rank).2)
        err rank chi 20000).1 ∧
      get_single_factorized_qpe_toffoli_and_qubit_cost O h1 eri rank err chi =
        ((O.compute_cost (h1.shape0 * 2)
            (O.compute_lambda h1 (O.factorize eri rank).1
              (O.factorize eri rank).2) err rank chi stps1).2.1,
         (O.compute_cost (h1.shape0 * 2)
            (O.compute_lambda h1 (O.factorize eri rank).1
              (O.factorize eri rank).2) err rank chi stps1).2.2) :=
  ⟨_, rfl, rfl⟩

/-! ## The QASM-example pipeline of `examples/ex_1_from_qasm.py`

The example configures `run_custom_resource_estimation_pipeline` with the
transformer list
`[transpile_to_native_gates, synthesize_clifford_t(error_budget),
  create_big_graph_from_subcircuits()]`
and the estimator `GraphResourceEstimator(architecture_model)`. The pipeline
and the three transformers live in `benchq.resource_estimation.graph`, which
is not part of the sources under verification; they are modelled from the
spec. A program is modelled by the ordered list of transformation stages that
have been applied to it. -/

/-- The three transformation stages the spec names for the graph-based
resource-estimation pipeline. -/
inductive Stage where
  | transpileToNativeGates
  | synthesizeCliffordT
  | createBigGraphFromSubcircuits
deriving DecidableEq

/-- Modelled from the spec: `run_custom_resource_estimation_pipeline` (from
`benchq.resource_estimation.graph`, absent from the sources) applies each
transformer of `transformers` to the algorithm description in list order and
only then hands the fully transformed description to the estimator. -/
def run_custom_resource_estimation_pipeline {P R : Type} (algorithm : P)
    (estimator : P → R) (transformers : List (P → P)) : R :=
  estimator (transformers.foldl (fun acc t => t acc) algorithm)

/-- Modelled from the spec: `transpile_to_native_gates` transpiles the input
circuit to a native gate set — recorded as applying its stage. -/
def transpile_to_native_gates (p : List Stage) : List Stage :=
  p ++ [Stage.transpileToNativeGates]

/-- Modelled from the spec: `synthesize_clifford_t(error_budget)` performs
Clifford+T gate synthesis — recorded as applying its stage (the error budget
does not affect the stage ordering). -/
def synthesize_clifford_t (_error_budget : ℚ) (p : List Stage) : List Stage :=
  p ++ [Stage.synthesizeCliffordT]

/-- Modelled from the spec: `create_big_graph_from_subcircuits()` builds the
big graph-state representation from subcircuits — recorded as applying its
stage. -/
def create_big_graph_from_subcircuits (p : List Stage) : List Stage :=
  p ++ [Stage.createBigGraphFromSubcircuits]

/-- The `main` of `examples/ex_1_from_qasm.py`: it runs the pipeline on the
loaded program with the transformer list
`[transpile_to_native_gates, synthesize_clifford_t(error_budget),
  create_big_graph_from_subcircuits()]` and the graph resource estimator
(abstracted as `estimator`). -/
def ex1_main {R : Type} (error_budget : ℚ) (quantum_program : List Stage)
    (estimator : List Stage → R) : R :=
  run_custom_resource_estimation_pipeline quantum_program estimator
    [transpile_to_native_gates,
     synthesize_clifford_t error_budget,
     create_big_graph_from_subcircuits]

/-- C5: the QASM example applies transpilation first, Clifford+T synthesis
second, big-graph construction third, and the estimator sees the program only
after all three stages, in exactly that order. -/
theorem ex1_pipeline_stage_order {R : Type} (error_budget : ℚ)
    (estimator : List Stage → R) :
    ex1_main error_budget [] estimator =
      estimator [Stage.transpileToNativeGates, Stage.synthesizeCliffordT,
        Stage.createBigGraphFromSubcircuits] :=
  rfl

end Benchq
